import Mathlib

/-!
Verification development for the PropertyPulse booking pricing and
availability engine.  The definitions below are shallow embeddings of the
TypeScript source: the calendar arithmetic mirrors the date-fns functions
used by the code (`startOfDay`-normalised dates at day granularity,
`addMonths` clamping the day of month, `differenceInCalendarMonths`
comparing month indices, `differenceInDays` subtracting timestamps), and
the pricing loop mirrors `calculatePricePeriods` from the server routes
revision, with monetary values embedded as rationals.
-/

namespace PropertyPulse

/-- Gregorian leap-year test, as implemented by JavaScript date arithmetic. -/
def isLeapYear (y : Nat) : Bool :=
  (y % 4 == 0 && y % 100 != 0) || (y % 400 == 0)

/-- Number of days in month `m` (1-12) of year `y`. -/
def daysInMonth (y m : Nat) : Nat :=
  if m = 2 then (if isLeapYear y then 29 else 28)
  else if m = 4 ∨ m = 6 ∨ m = 9 ∨ m = 11 then 30
  else 31

/-- Calendar date at day granularity; the code normalises every date with
`startOfDay` before arithmetic, so no time-of-day component is modelled. -/
structure Date where
  year : Nat
  month : Nat
  day : Nat
deriving DecidableEq

/-- A well-formed calendar date. -/
def Date.Valid (d : Date) : Prop :=
  1 ≤ d.year ∧ 1 ≤ d.month ∧ d.month ≤ 12 ∧ 1 ≤ d.day ∧
    d.day ≤ daysInMonth d.year d.month

instance : DecidablePred Date.Valid := fun d => by
  unfold Date.Valid; infer_instance

theorem valid_mk (y m day : Nat) :
    Date.Valid ⟨y, m, day⟩ ↔
      1 ≤ y ∧ 1 ≤ m ∧ m ≤ 12 ∧ 1 ≤ day ∧ day ≤ daysInMonth y m :=
  Iff.rfl

/-- Days occupied by the months strictly before month `m` in year `y`. -/
def daysBeforeMonth (y : Nat) : Nat → Nat
  | 0 => 0
  | 1 => 0
  | m + 2 => daysBeforeMonth y (m + 1) + daysInMonth y (m + 1)

/-- Number of leap years strictly before year `y`. -/
def leapsBefore (y : Nat) : Nat :=
  (y - 1) / 4 - (y - 1) / 100 + (y - 1) / 400

/-- Linear day number of a date; JavaScript `Date` comparisons and
`differenceInDays` are timestamp comparisons, which at day granularity
coincide with comparisons of this day count. -/
def toDays (d : Date) : Nat :=
  365 * d.year + leapsBefore d.year + daysBeforeMonth d.year d.month + d.day

theorem toDays_mk (y m day : Nat) :
    toDays ⟨y, m, day⟩ = 365 * y + leapsBefore y + daysBeforeMonth y m + day :=
  rfl

theorem daysBeforeMonth_one (y : Nat) : daysBeforeMonth y 1 = 0 := rfl

theorem daysInMonth_pos (y m : Nat) : 1 ≤ daysInMonth y m := by
  unfold daysInMonth
  split_ifs <;> omega

theorem daysInMonth_le_31 (y m : Nat) : daysInMonth y m ≤ 31 := by
  unfold daysInMonth
  split_ifs <;> omega

theorem daysBeforeMonth_succ (y m : Nat) (hm : 1 ≤ m) :
    daysBeforeMonth y (m + 1) = daysBeforeMonth y m + daysInMonth y m := by
  match m, hm with
  | m + 1, _ => rfl

theorem leapsBefore_succ (y : Nat) (hy : 1 ≤ y) :
    leapsBefore (y + 1) = leapsBefore y + (if isLeapYear y then 1 else 0) := by
  obtain ⟨a, rfl⟩ : ∃ a, y = a + 1 := ⟨y - 1, by omega⟩
  have e4 : (a + 1) / 4 = a / 4 + if 4 ∣ a + 1 then 1 else 0 := Nat.succ_div a 4
  have e100 : (a + 1) / 100 = a / 100 + if 100 ∣ a + 1 then 1 else 0 :=
    Nat.succ_div a 100
  have e400 : (a + 1) / 400 = a / 400 + if 400 ∣ a + 1 then 1 else 0 :=
    Nat.succ_div a 400
  have hle : a / 100 ≤ a / 4 := Nat.div_le_div_left (by norm_num) (by norm_num)
  have hmod4 : (a + 1) % 4 = 0 ↔ 4 ∣ a + 1 := Iff.symm Nat.dvd_iff_mod_eq_zero
  have hmod100 : (a + 1) % 100 = 0 ↔ 100 ∣ a + 1 :=
    Iff.symm Nat.dvd_iff_mod_eq_zero
  have hmod400 : (a + 1) % 400 = 0 ↔ 400 ∣ a + 1 :=
    Iff.symm Nat.dvd_iff_mod_eq_zero
  have h400_100 : 400 ∣ a + 1 → 100 ∣ a + 1 := fun h =>
    Nat.dvd_trans (by norm_num) h
  have h100_4 : 100 ∣ a + 1 → 4 ∣ a + 1 := fun h =>
    Nat.dvd_trans (by norm_num) h
  unfold leapsBefore isLeapYear
  simp only [Nat.add_sub_cancel]
  by_cases h4 : 4 ∣ a + 1 <;> by_cases h100 : 100 ∣ a + 1 <;>
    by_cases h400 : 400 ∣ a + 1 <;>
      simp_all [Bool.or_eq_true, Bool.and_eq_true, beq_iff_eq, bne_iff_ne] <;>
        omega

/-- Successor date: the next calendar day, rolling month and year. -/
def nextDay (d : Date) : Date :=
  if d.day < daysInMonth d.year d.month then ⟨d.year, d.month, d.day + 1⟩
  else if d.month < 12 then ⟨d.year, d.month + 1, 1⟩
  else ⟨d.year + 1, 1, 1⟩

theorem nextDay_valid (d : Date) (hd : d.Valid) : (nextDay d).Valid := by
  obtain ⟨h1, h2, h3, h4, h5⟩ := hd
  have p1 := daysInMonth_pos d.year (d.month + 1)
  have p2 := daysInMonth_pos (d.year + 1) 1
  unfold nextDay
  split_ifs with ha hb
  · exact (valid_mk _ _ _).mpr ⟨h1, h2, h3, by omega, by omega⟩
  · exact (valid_mk _ _ _).mpr ⟨h1, by omega, by omega, by omega, by omega⟩
  · exact (valid_mk _ _ _).mpr ⟨by omega, by omega, by omega, by omega, by omega⟩

theorem daysBeforeMonth_12 (y : Nat) :
    daysBeforeMonth y 12 = 306 + daysInMonth y 2 := by
  cases hc : isLeapYear y <;>
    simp [daysBeforeMonth, daysInMonth, hc]

theorem toDays_nextDay (d : Date) (hd : d.Valid) :
    toDays (nextDay d) = toDays d + 1 := by
  obtain ⟨h1, h2, h3, h4, h5⟩ := hd
  have hm : toDays d =
      365 * d.year + leapsBefore d.year + daysBeforeMonth d.year d.month + d.day :=
    rfl
  unfold nextDay
  split_ifs with ha hb
  · rw [toDays_mk d.year d.month (d.day + 1)]; omega
  · rw [toDays_mk d.year (d.month + 1) 1]
    have hstep := daysBeforeMonth_succ d.year d.month h2
    omega
  · rw [toDays_mk (d.year + 1) 1 1]
    have hm12 : d.month = 12 := by omega
    have h31 : daysInMonth d.year 12 = 31 := by norm_num [daysInMonth]
    have hleap := leapsBefore_succ d.year h1
    have h12 := daysBeforeMonth_12 d.year
    have hone : daysBeforeMonth (d.year + 1) 1 = 0 := rfl
    have hfeb : daysInMonth d.year 2 = if isLeapYear d.year then 29 else 28 := by
      norm_num [daysInMonth]
    rw [hm12] at hm h5 ha
    cases hc : isLeapYear d.year <;>
      simp only [hc, if_true, if_false, Bool.false_eq_true] at hleap hfeb <;>
        omega

/-- Repeatedly applied successor date (used to model date-fns `addWeeks`). -/
def addDays (d : Date) : Nat → Date
  | 0 => d
  | n + 1 => nextDay (addDays d n)

theorem addDays_valid (d : Date) (hd : d.Valid) (n : Nat) :
    (addDays d n).Valid := by
  induction n with
  | zero => exact hd
  | succ n ih => exact nextDay_valid _ ih

theorem toDays_addDays (d : Date) (hd : d.Valid) (n : Nat) :
    toDays (addDays d n) = toDays d + n := by
  induction n with
  | zero => rfl
  | succ n ih =>
    have := toDays_nextDay (addDays d n) (addDays_valid d hd n)
    simp only [addDays]
    omega

/-- date-fns `addWeeks(date, 1)`: seven calendar days forward. -/
def addWeeks1 (d : Date) : Date := addDays d 7

theorem addWeeks1_valid (d : Date) (hd : d.Valid) : (addWeeks1 d).Valid :=
  addDays_valid d hd 7

theorem toDays_addWeeks1 (d : Date) (hd : d.Valid) :
    toDays (addWeeks1 d) = toDays d + 7 :=
  toDays_addDays d hd 7

/-- date-fns `addMonths(date, 1)`: one month forward, clamping the day of
month to the length of the target month. -/
def addMonths1 (d : Date) : Date :=
  if d.month < 12 then
    ⟨d.year, d.month + 1,
      if d.day ≤ daysInMonth d.year (d.month + 1) then d.day
      else daysInMonth d.year (d.month + 1)⟩
  else
    ⟨d.year + 1, 1,
      if d.day ≤ daysInMonth (d.year + 1) 1 then d.day
      else daysInMonth (d.year + 1) 1⟩

theorem addMonths1_valid (d : Date) (hd : d.Valid) : (addMonths1 d).Valid := by
  obtain ⟨h1, h2, h3, h4, h5⟩ := hd
  have p1 := daysInMonth_pos d.year (d.month + 1)
  have p2 := daysInMonth_pos (d.year + 1) 1
  unfold addMonths1
  split_ifs with ha hb hc
  · exact (valid_mk _ _ _).mpr ⟨h1, by omega, by omega, by omega, by omega⟩
  · exact (valid_mk _ _ _).mpr ⟨h1, by omega, by omega, by omega, by omega⟩
  · exact (valid_mk _ _ _).mpr ⟨by omega, by omega, by omega, by omega, by omega⟩
  · exact (valid_mk _ _ _).mpr ⟨by omega, by omega, by omega, by omega, by omega⟩

theorem toDays_lt_addMonths1 (d : Date) (hd : d.Valid) :
    toDays d < toDays (addMonths1 d) := by
  obtain ⟨h1, h2, h3, h4, h5⟩ := hd
  have hm : toDays d =
      365 * d.year + leapsBefore d.year + daysBeforeMonth d.year d.month + d.day :=
    rfl
  have p1 := daysInMonth_pos d.year (d.month + 1)
  unfold addMonths1
  split_ifs with ha hb hc
  · rw [toDays_mk d.year (d.month + 1) d.day]
    have hstep := daysBeforeMonth_succ d.year d.month h2
    omega
  · rw [toDays_mk d.year (d.month + 1) (daysInMonth d.year (d.month + 1))]
    have hstep := daysBeforeMonth_succ d.year d.month h2
    omega
  · rw [toDays_mk (d.year + 1) 1 d.day]
    have hm12 : d.month = 12 := by omega
    have h31 : daysInMonth d.year 12 = 31 := by norm_num [daysInMonth]
    have hleap := leapsBefore_succ d.year h1
    have h12 := daysBeforeMonth_12 d.year
    have hone : daysBeforeMonth (d.year + 1) 1 = 0 := rfl
    have hfeb : daysInMonth d.year 2 = if isLeapYear d.year then 29 else 28 := by
      norm_num [daysInMonth]
    rw [hm12] at hm h5
    cases hcl : isLeapYear d.year <;>
      simp only [hcl, if_true, if_false, Bool.false_eq_true] at hleap hfeb <;>
        omega
  · rw [toDays_mk (d.year + 1) 1 (daysInMonth (d.year + 1) 1)]
    have hm12 : d.month = 12 := by omega
    have h31 : daysInMonth d.year 12 = 31 := by norm_num [daysInMonth]
    have hjan : daysInMonth (d.year + 1) 1 = 31 := by norm_num [daysInMonth]
    have hleap := leapsBefore_succ d.year h1
    have h12 := daysBeforeMonth_12 d.year
    have hone : daysBeforeMonth (d.year + 1) 1 = 0 := rfl
    have hfeb : daysInMonth d.year 2 = if isLeapYear d.year then 29 else 28 := by
      norm_num [daysInMonth]
    rw [hm12] at hm h5
    cases hcl : isLeapYear d.year <;>
      simp only [hcl, if_true, if_false, Bool.false_eq_true] at hleap hfeb <;>
        omega

/-- date-fns `differenceInCalendarMonths`: signed difference of month
indices, ignoring the day of month. -/
def dcm (a b : Date) : Int :=
  12 * ((a.year : Int) - b.year) + ((a.month : Int) - b.month)

/-- date-fns `differenceInDays` at day granularity: signed difference of
day numbers. -/
def diffDays (a b : Date) : Int :=
  (toDays a : Int) - toDays b

/-- The slice of a property record consumed by the pricing engine:
`rate` is the nightly rate, `weeklyRate` and `monthlyRate` are optional
higher tiers (absent models a null column, matching JS truthiness of the
`property.weeklyRate && ...` guards). -/
structure Property where
  rate : ℚ
  weeklyRate : Option ℚ
  monthlyRate : Option ℚ
deriving DecidableEq

/-- The `type` discriminator of a price period. -/
inductive PeriodType where
  | monthly
  | weekly
  | daily
deriving DecidableEq

/-- A price period as built by the server `calculatePricePeriods`:
`baseRate` is the undiscounted amount charged for the period, `amount`
the discounted one, and `discountPercent` the applied percentage. -/
structure PricePeriod where
  type : PeriodType
  startDate : Date
  endDate : Date
  amount : ℚ
  baseRate : ℚ
  duration : Int
  discountPercent : ℚ
deriving DecidableEq

/-- `calculateDiscountedRate` from the server routes: 10% discount per
period index, capped at 50%. -/
def calculateDiscountedRate (baseRate : ℚ) (periodIndex : Nat) : ℚ :=
  baseRate * (1 - min ((periodIndex : ℚ) * 10) 50 / 100)

/-- `discountPercent` stored on each period: `Math.min(periodIndex * 10, 50)`. -/
def discountPercentOf (periodIndex : Nat) : ℚ :=
  min ((periodIndex : ℚ) * 10) 50

/-- `calculateMonthlyEnd` helper: one month ahead, capped at the stay end. -/
def calculateMonthlyEnd (endDate date : Date) : Date :=
  if toDays (addMonths1 date) ≤ toDays endDate then addMonths1 date else endDate

/-- `calculateWeeklyEnd` helper: one week ahead, capped at the stay end. -/
def calculateWeeklyEnd (endDate date : Date) : Date :=
  if toDays (addWeeks1 date) ≤ toDays endDate then addWeeks1 date else endDate

/-- Loop body of the server `calculatePricePeriods`, with the `continue`
control flow rendered as guarded recursion.  The `while` loop is embedded
with explicit fuel; `none` models a run that exhausts fuel, which the
top-level wrapper supplies generously enough never to happen.  The
monthly branch's inner `differenceInCalendarMonths(monthlyEnd, d) === 1`
test is folded into its guard: when it fails the source falls through to
the weekly and daily sections. -/
def pricePeriodsLoop (property : Property) (endDate : Date) :
    Nat → Date → Nat → Option (List PricePeriod)
  | 0, currentDate, _ =>
    if toDays currentDate < toDays endDate then none else some []
  | fuel + 1, currentDate, periodIndex =>
    if toDays currentDate < toDays endDate then
      if property.monthlyRate.isSome ∧ 1 ≤ dcm endDate currentDate ∧
          dcm (calculateMonthlyEnd endDate currentDate) currentDate = 1 then
        let monthlyEnd := calculateMonthlyEnd endDate currentDate
        let baseRate := property.monthlyRate.getD 0
        (pricePeriodsLoop property endDate fuel monthlyEnd (periodIndex + 1)).map
          (⟨.monthly, currentDate, monthlyEnd,
            calculateDiscountedRate baseRate periodIndex, baseRate, 1,
            discountPercentOf periodIndex⟩ :: ·)
      else if property.weeklyRate.isSome ∧ 7 ≤ diffDays endDate currentDate then
        let weeklyEnd := calculateWeeklyEnd endDate currentDate
        let baseRate := property.weeklyRate.getD 0
        (pricePeriodsLoop property endDate fuel weeklyEnd (periodIndex + 1)).map
          (⟨.weekly, currentDate, weeklyEnd,
            calculateDiscountedRate baseRate periodIndex, baseRate, 1,
            discountPercentOf periodIndex⟩ :: ·)
      else if 0 < diffDays endDate currentDate then
        let remainingDaysCount := diffDays endDate currentDate
        let baseRate := property.rate * remainingDaysCount
        (pricePeriodsLoop property endDate fuel endDate periodIndex).map
          (⟨.daily, currentDate, endDate,
            calculateDiscountedRate baseRate periodIndex, baseRate,
            remainingDaysCount, discountPercentOf periodIndex⟩ :: ·)
      else
        pricePeriodsLoop property endDate fuel currentDate periodIndex
    else some []

/-- The server `calculatePricePeriods(property, checkIn, checkOut)`.  The
fuel bound `toDays checkOut - toDays checkIn` dominates the iteration
count because every loop iteration advances the cursor by at least one
day (proved below). -/
def calculatePricePeriods (property : Property) (checkIn checkOut : Date) :
    Option (List PricePeriod) :=
  pricePeriodsLoop property checkOut (toDays checkOut - toDays checkIn) checkIn 0

/-- The `longestPeriodUsed` reduction of the PaymentEstimator estimates
memo: the period whose `baseRate` is largest (first maximum wins). -/
def longestPeriodUsed (periods : List PricePeriod) : Option PricePeriod :=
  periods.foldl
    (fun longest current =>
      if (match longest with
          | some l => l.baseRate
          | none => 0) < current.baseRate then some current else longest)
    none

/-- The estimates memo's security deposit: the `baseRate` of the longest
period used, falling back to the nightly rate. -/
def securityDeposit (property : Property) (periods : List PricePeriod) : ℚ :=
  match longestPeriodUsed periods with
  | some l => l.baseRate
  | none => property.rate

/-- The accommodation total of the estimates memo: sum of discounted
period amounts. -/
def accommodationTotal (periods : List PricePeriod) : ℚ :=
  periods.foldl (fun sum period => sum + period.amount) 0

/-- The full pricing pipeline surfaced to the booking UI: decomposition
and discounting as in the server `calculatePricePeriods`, and the
deposit/grand-total policy of the PaymentEstimator estimates memo. -/
def estimate (property : Property) (checkIn checkOut : Date) :
    Option (List PricePeriod × ℚ × ℚ × ℚ) :=
  (calculatePricePeriods property checkIn checkOut).map fun periods =>
    let acc := accommodationTotal periods
    let dep := securityDeposit property periods
    (periods, acc, dep, acc + dep)

/-- The interval test of the `overlappingBookings` queries: with stored
interval `[aStart, aEnd]` and candidate `[bStart, bEnd]` (as day numbers),
the three disjuncts are exactly the `lte`/`gte` conjunctions of the SQL
`or(...)` — candidate start inside the stored interval, candidate end
inside it, or the stored interval contained in the candidate, all with
inclusive comparisons. -/
def overlapsQuery (aStart aEnd bStart bEnd : Nat) : Bool :=
  (decide (aStart ≤ bStart) && decide (bStart ≤ aEnd)) ||
    (decide (aStart ≤ bEnd) && decide (bEnd ≤ aEnd)) ||
    (decide (bStart ≤ aStart) && decide (aEnd ≤ bEnd))

/-- A row of the `guests` table as consulted by the check-availability
endpoint; the schema has no status column on guests. -/
structure GuestRow where
  propertyId : Nat
  checkIn : Date
  checkOut : Date
deriving DecidableEq

/-- A row of the `bookings` table as consulted by the booking-creation
endpoint. -/
structure BookingRow where
  propertyId : Nat
  status : String
  checkIn : Date
  checkOut : Date
deriving DecidableEq

/-- The `POST /api/properties/:id/check-availability` handler: it reports
`available` iff the `guests` table holds no row for the property whose
stay interval satisfies the overlap query (no status filter exists). -/
def checkAvailabilityHandler (rows : List GuestRow) (propertyId : Nat)
    (checkIn checkOut : Date) : Bool :=
  !(rows.any fun g =>
    decide (g.propertyId = propertyId) &&
      overlapsQuery (toDays g.checkIn) (toDays g.checkOut)
        (toDays checkIn) (toDays checkOut))

/-- The availability filter of `POST /api/bookings`: a blocking booking is
one for the same property with status `confirmed` whose interval satisfies
the overlap query; the request is rejected iff one exists. -/
def bookingOverlapExists (rows : List BookingRow) (propertyId : Nat)
    (checkIn checkOut : Date) : Bool :=
  rows.any fun b =>
    decide (b.propertyId = propertyId) && decide (b.status = "confirmed") &&
      overlapsQuery (toDays b.checkIn) (toDays b.checkOut)
        (toDays checkIn) (toDays checkOut)

/-- The date validation of the booking endpoint: reversed or zero-length
stays are rejected with a 400 message, anything else passes through. -/
def bookingDateValidation (checkIn checkOut : Date) : Except String Unit :=
  if toDays checkOut ≤ toDays checkIn then
    Except.error "Check-out date must be after check-in date"
  else Except.ok ()

/-- Outcome of a payment proposal. -/
inductive PaymentDecision where
  | accepted
  | rejected (reason : String)
deriving DecidableEq

/-- Sum of the scheduled amounts of all periods from `paidCount` onward. -/
def remainingBalance (schedule : List ℚ) (paidCount : Nat) : ℚ :=
  (schedule.drop paidCount).foldl (· + ·) 0

/-- Modelled from the spec: the sequencing endpoints that
`PaymentRegistration.tsx` calls (`/api/payments/unpaid-periods` and
`/api/payments/process`) are not present in the source tree — the
`POST /api/payments` handler inserts rows without validation — so the
PaymentSequencer contract is modelled from spec section 4.4: a proposal
against `proposedPeriodIndex` is accepted when it targets exactly the
next unpaid period or pays the full remaining balance, and otherwise is
rejected with `SequentialPaymentViolation`. -/
def validateNextPayment (schedule : List ℚ) (paidPeriodsCount : Nat)
    (proposedPeriodIndex : Nat) (amount : ℚ) : PaymentDecision :=
  if proposedPeriodIndex = paidPeriodsCount ∨
      amount = remainingBalance schedule paidPeriodsCount then
    PaymentDecision.accepted
  else PaymentDecision.rejected "SequentialPaymentViolation"

theorem loop_at_end (property : Property) (endDate : Date) (fuel : Nat)
    (currentDate : Date) (periodIndex : Nat)
    (h : ¬ toDays currentDate < toDays endDate) :
    pricePeriodsLoop property endDate fuel currentDate periodIndex = some [] := by
  cases fuel <;> simp [pricePeriodsLoop, h]

theorem calculateMonthlyEnd_advance (endDate currentDate : Date)
    (hc : currentDate.Valid) (he : endDate.Valid)
    (hlt : toDays currentDate < toDays endDate) :
    (calculateMonthlyEnd endDate currentDate).Valid ∧
      toDays currentDate < toDays (calculateMonthlyEnd endDate currentDate) ∧
      toDays (calculateMonthlyEnd endDate currentDate) ≤ toDays endDate := by
  unfold calculateMonthlyEnd
  split_ifs with h
  · exact ⟨addMonths1_valid _ hc, toDays_lt_addMonths1 _ hc, h⟩
  · exact ⟨he, hlt, le_refl _⟩

theorem calculateWeeklyEnd_advance (endDate currentDate : Date)
    (hc : currentDate.Valid)
    (h7 : 7 ≤ diffDays endDate currentDate) :
    (calculateWeeklyEnd endDate currentDate).Valid ∧
      toDays (calculateWeeklyEnd endDate currentDate) = toDays currentDate + 7 ∧
      toDays (calculateWeeklyEnd endDate currentDate) ≤ toDays endDate := by
  have hw := toDays_addWeeks1 currentDate hc
  have hle : toDays (addWeeks1 currentDate) ≤ toDays endDate := by
    unfold diffDays at h7; omega
  unfold calculateWeeklyEnd
  rw [if_pos hle]
  exact ⟨addWeeks1_valid _ hc, hw, hle⟩

theorem loop_isSome (property : Property) (endDate : Date)
    (he : endDate.Valid) :
    ∀ (fuel : Nat) (currentDate : Date) (periodIndex : Nat),
      currentDate.Valid → toDays endDate - toDays currentDate ≤ fuel →
      (pricePeriodsLoop property endDate fuel currentDate periodIndex).isSome := by
  intro fuel
  induction fuel with
  | zero =>
    intro cur pi hv hle
    have h : ¬ toDays cur < toDays endDate := by omega
    rw [loop_at_end property endDate 0 cur pi h]
    rfl
  | succ fuel ih =>
    intro cur pi hv hle
    by_cases hlt : toDays cur < toDays endDate
    · simp only [pricePeriodsLoop, if_pos hlt]
      split_ifs with hm hw hd
      · have adv := calculateMonthlyEnd_advance endDate cur hv he hlt
        rw [Option.isSome_map']
        exact ih _ _ adv.1 (by omega)
      · have adv := calculateWeeklyEnd_advance endDate cur hv hw.2
        rw [Option.isSome_map']
        exact ih _ _ adv.1 (by omega)
      · rw [Option.isSome_map']
        exact ih _ _ he (by omega)
      · exfalso
        unfold diffDays at hd
        omega
    · rw [loop_at_end property endDate _ cur pi hlt]
      rfl

/-- Structural invariant of an emitted period list: starting from cursor
`cur`, each period starts exactly at the cursor, strictly advances it, and
the final period's end lands on the stay end. -/
inductive Covers (endDate : Date) : Date → List PricePeriod → Prop where
  | last : ∀ (p : PricePeriod) (cur : Date), p.startDate = cur →
      toDays p.endDate = toDays endDate → toDays cur < toDays p.endDate →
      Covers endDate cur [p]
  | cons : ∀ (p : PricePeriod) (cur : Date) (ps : List PricePeriod),
      p.startDate = cur → toDays cur < toDays p.endDate →
      Covers endDate p.endDate ps → Covers endDate cur (p :: ps)

set_option maxHeartbeats 1000000 in
theorem loop_covers (property : Property) (endDate : Date)
    (he : endDate.Valid) :
    ∀ (fuel : Nat) (currentDate : Date) (periodIndex : Nat)
      (ps : List PricePeriod),
      currentDate.Valid → toDays currentDate < toDays endDate →
      pricePeriodsLoop property endDate fuel currentDate periodIndex = some ps →
      Covers endDate currentDate ps := by
  intro fuel
  induction fuel with
  | zero =>
    intro cur pi ps hv hlt heq
    simp [pricePeriodsLoop, if_pos hlt] at heq
  | succ fuel ih =>
    intro cur pi ps hv hlt heq
    simp only [pricePeriodsLoop, if_pos hlt] at heq
    split_ifs at heq with hm hw hd
    · obtain ⟨tail, htail, rfl⟩ := Option.map_eq_some'.mp heq
      have adv := calculateMonthlyEnd_advance endDate cur hv he hlt
      by_cases hlt' : toDays (calculateMonthlyEnd endDate cur) < toDays endDate
      · have hrec := ih (calculateMonthlyEnd endDate cur) (pi + 1) tail adv.1 hlt' htail
        refine Covers.cons _ cur tail rfl ?_ hrec
        show toDays cur < toDays (calculateMonthlyEnd endDate cur)
        exact adv.2.1
      · have htail0 : tail = [] := by
          rw [loop_at_end property endDate fuel _ _ hlt'] at htail
          exact (Option.some_inj.mp htail).symm
        subst htail0
        refine Covers.last _ cur rfl ?_ ?_
        · show toDays (calculateMonthlyEnd endDate cur) = toDays endDate
          omega
        · show toDays cur < toDays (calculateMonthlyEnd endDate cur)
          exact adv.2.1
    · obtain ⟨tail, htail, rfl⟩ := Option.map_eq_some'.mp heq
      have adv := calculateWeeklyEnd_advance endDate cur hv hw.2
      generalize hW : calculateWeeklyEnd endDate cur = W at adv htail ⊢
      by_cases hlt' : toDays W < toDays endDate
      · have hrec := ih W (pi + 1) tail adv.1 hlt' htail
        exact Covers.cons _ cur tail rfl (show toDays cur < toDays W by omega) hrec
      · have htail0 : tail = [] := by
          rw [loop_at_end property endDate fuel _ _ hlt'] at htail
          exact (Option.some_inj.mp htail).symm
        subst htail0
        exact Covers.last _ cur rfl (show toDays W = toDays endDate by omega)
          (show toDays cur < toDays W by omega)
    · obtain ⟨tail, htail, rfl⟩ := Option.map_eq_some'.mp heq
      have htail0 : tail = [] := by
        rw [loop_at_end property endDate fuel _ _ (lt_irrefl _)] at htail
        exact (Option.some_inj.mp htail).symm
      subst htail0
      exact Covers.last _ cur rfl rfl hlt
    · exfalso
      unfold diffDays at hd
      omega

theorem covers_lt {endDate cur : Date} {ps : List PricePeriod}
    (h : Covers endDate cur ps) : toDays cur < toDays endDate := by
  induction h with
  | last p cur h1 h2 h3 => omega
  | cons p cur ps h1 h2 _ ih => omega

theorem covers_ne_nil {endDate cur : Date} {ps : List PricePeriod}
    (h : Covers endDate cur ps) : ps ≠ [] := by
  cases h <;> simp

theorem covers_head {endDate cur : Date} {ps : List PricePeriod}
    (h : Covers endDate cur ps) :
    ∃ p rest, ps = p :: rest ∧ p.startDate = cur := by
  cases h with
  | last p cur h1 h2 h3 => exact ⟨p, [], rfl, h1⟩
  | cons p cur ps h1 h2 h3 => exact ⟨p, ps, rfl, h1⟩

theorem covers_start_lt_end {endDate cur : Date} {ps : List PricePeriod}
    (h : Covers endDate cur ps) :
    ∀ p ∈ ps, toDays p.startDate < toDays p.endDate := by
  induction h with
  | last p cur h1 h2 h3 =>
    intro q hq
    simp only [List.mem_singleton] at hq
    subst hq
    rw [h1]
    exact h3
  | cons p cur ps h1 h2 _ ih =>
    intro q hq
    rcases List.mem_cons.mp hq with hq | hq
    · subst hq; rw [h1]; exact h2
    · exact ih q hq

theorem covers_getLast {endDate cur : Date} {ps : List PricePeriod}
    (h : Covers endDate cur ps) :
    ∃ p, ps.getLast? = some p ∧ toDays p.endDate = toDays endDate := by
  induction h with
  | last p cur h1 h2 h3 => exact ⟨p, rfl, h2⟩
  | cons p cur ps h1 h2 h3 ih =>
    obtain ⟨q, hq, hq2⟩ := ih
    refine ⟨q, ?_, hq2⟩
    rw [List.getLast?_cons, hq]
    cases ps <;> simp_all

theorem covers_contiguous {endDate cur : Date} {ps : List PricePeriod}
    (h : Covers endDate cur ps) :
    ∀ (i : Nat) (hi : i + 1 < ps.length),
      (ps.get ⟨i, by omega⟩).endDate = (ps.get ⟨i + 1, hi⟩).startDate := by
  induction h with
  | last p cur h1 h2 h3 =>
    intro i hi
    simp at hi
  | cons p cur ps h1 h2 h3 ih =>
    intro i hi
    match i with
    | 0 =>
      obtain ⟨q, rest, rfl, hstart⟩ := covers_head h3
      simp [hstart]
    | i + 1 =>
      simp only [List.length_cons] at hi
      exact ih i (by omega)

theorem covers_cursor_le_start {endDate cur : Date} {ps : List PricePeriod}
    (h : Covers endDate cur ps) :
    ∀ (j : Nat) (hj : j < ps.length),
      toDays cur ≤ toDays (ps.get ⟨j, hj⟩).startDate := by
  induction h with
  | last p cur h1 h2 h3 =>
    intro j hj
    simp only [List.length_singleton] at hj
    match j with
    | 0 => simp [h1]
  | cons p cur ps h1 h2 h3 ih =>
    intro j hj
    match j with
    | 0 => simp [h1]
    | j + 1 =>
      simp only [List.length_cons] at hj
      have := ih j (by omega)
      simp only [List.get_cons_succ]
      omega

theorem covers_separated {endDate cur : Date} {ps : List PricePeriod}
    (h : Covers endDate cur ps) :
    ∀ (i j : Nat) (hi : i < ps.length) (hj : j < ps.length), i < j →
      toDays (ps.get ⟨i, hi⟩).endDate ≤ toDays (ps.get ⟨j, hj⟩).startDate := by
  induction h with
  | last p cur h1 h2 h3 =>
    intro i j hi hj hij
    simp only [List.length_singleton] at hi hj
    omega
  | cons p cur ps h1 h2 h3 ih =>
    intro i j hi hj hij
    match i, j with
    | 0, j + 1 =>
      simp only [List.length_cons] at hj
      exact covers_cursor_le_start h3 j (by omega)
    | i + 1, j + 1 =>
      simp only [List.length_cons] at hi hj
      exact ih i j (by omega) (by omega) (by omega)

theorem covers_union {endDate cur : Date} {ps : List PricePeriod}
    (h : Covers endDate cur ps) :
    ∀ x : Nat, (toDays cur ≤ x ∧ x < toDays endDate) ↔
      ∃ p ∈ ps, toDays p.startDate ≤ x ∧ x < toDays p.endDate := by
  induction h with
  | last p cur h1 h2 h3 =>
    intro x
    constructor
    · rintro ⟨hx1, hx2⟩
      exact ⟨p, List.mem_singleton_self p, by rw [h1]; omega⟩
    · rintro ⟨q, hq, hq2⟩
      simp only [List.mem_singleton] at hq
      subst hq
      rw [h1] at hq2
      omega
  | cons p cur ps h1 h2 h3 ih =>
    intro x
    have hlt' := covers_lt h3
    constructor
    · rintro ⟨hx1, hx2⟩
      by_cases hcase : x < toDays p.endDate
      · exact ⟨p, List.mem_cons_self _ _, by rw [h1]; omega⟩
      · obtain ⟨q, hq, hq2⟩ := (ih x).mp ⟨by omega, hx2⟩
        exact ⟨q, List.mem_cons_of_mem _ hq, hq2⟩
    · rintro ⟨q, hq, hq2⟩
      rcases List.mem_cons.mp hq with rfl | hq
      · rw [h1] at hq2; omega
      · have := (ih x).mpr ⟨q, hq, hq2⟩
        omega

/-- The discount pattern of an emitted period list whose first period has
loop index `pi`: each successive period carries the capped position-based
discount percentage and the matching discounted amount. -/
def DiscountsFrom (pi : Nat) : List PricePeriod → Prop
  | [] => True
  | p :: ps =>
    (p.discountPercent = discountPercentOf pi ∧
      p.amount = p.baseRate * (1 - discountPercentOf pi / 100)) ∧
    DiscountsFrom (pi + 1) ps

theorem loop_discounts (property : Property) (endDate : Date) :
    ∀ (fuel : Nat) (currentDate : Date) (periodIndex : Nat)
      (ps : List PricePeriod),
      pricePeriodsLoop property endDate fuel currentDate periodIndex = some ps →
      DiscountsFrom periodIndex ps := by
  intro fuel
  induction fuel with
  | zero =>
    intro cur pi ps heq
    simp only [pricePeriodsLoop] at heq
    split_ifs at heq
    simp only [Option.some_inj] at heq
    subst heq
    trivial
  | succ fuel ih =>
    intro cur pi ps heq
    simp only [pricePeriodsLoop] at heq
    split_ifs at heq with hlt hm hw hd
    · obtain ⟨tail, htail, rfl⟩ := Option.map_eq_some'.mp heq
      exact ⟨⟨rfl, rfl⟩, ih _ _ tail htail⟩
    · obtain ⟨tail, htail, rfl⟩ := Option.map_eq_some'.mp heq
      exact ⟨⟨rfl, rfl⟩, ih _ _ tail htail⟩
    · obtain ⟨tail, htail, rfl⟩ := Option.map_eq_some'.mp heq
      have htail0 : tail = [] := by
        rw [loop_at_end property endDate fuel _ _ (lt_irrefl _)] at htail
        exact (Option.some_inj.mp htail).symm
      subst htail0
      exact ⟨⟨rfl, rfl⟩, trivial⟩
    · exact ih _ _ ps heq
    · simp only [Option.some_inj] at heq
      subst heq
      trivial

theorem discountsFrom_get {pi : Nat} {ps : List PricePeriod}
    (h : DiscountsFrom pi ps) :
    ∀ (i : Nat) (hi : i < ps.length),
      (ps.get ⟨i, hi⟩).discountPercent = discountPercentOf (pi + i) ∧
        (ps.get ⟨i, hi⟩).amount =
          (ps.get ⟨i, hi⟩).baseRate * (1 - discountPercentOf (pi + i) / 100) := by
  induction ps generalizing pi with
  | nil => intro i hi; simp at hi
  | cons p ps ihp =>
    intro i hi
    match i with
    | 0 => simpa using h.1
    | i + 1 =>
      have := ihp h.2 i (by simpa using hi)
      simpa [Nat.add_comm, Nat.add_assoc, Nat.add_left_comm] using this

theorem loop_monthly_step (property : Property) (endDate : Date) (fuel : Nat)
    (cur : Date) (pi : Nat)
    (hlt : toDays cur < toDays endDate)
    (hm : property.monthlyRate.isSome = true ∧ 1 ≤ dcm endDate cur ∧
      dcm (calculateMonthlyEnd endDate cur) cur = 1) :
    pricePeriodsLoop property endDate (fuel + 1) cur pi =
      (pricePeriodsLoop property endDate fuel (calculateMonthlyEnd endDate cur)
          (pi + 1)).map
        (⟨.monthly, cur, calculateMonthlyEnd endDate cur,
          calculateDiscountedRate (property.monthlyRate.getD 0) pi,
          property.monthlyRate.getD 0, 1, discountPercentOf pi⟩ :: ·) := by
  simp only [pricePeriodsLoop]
  rw [if_pos hlt, if_pos hm]

theorem loop_weekly_step (property : Property) (endDate : Date) (fuel : Nat)
    (cur : Date) (pi : Nat)
    (hlt : toDays cur < toDays endDate)
    (hm : ¬(property.monthlyRate.isSome = true ∧ 1 ≤ dcm endDate cur ∧
      dcm (calculateMonthlyEnd endDate cur) cur = 1))
    (hw : property.weeklyRate.isSome = true ∧ 7 ≤ diffDays endDate cur) :
    pricePeriodsLoop property endDate (fuel + 1) cur pi =
      (pricePeriodsLoop property endDate fuel (calculateWeeklyEnd endDate cur)
          (pi + 1)).map
        (⟨.weekly, cur, calculateWeeklyEnd endDate cur,
          calculateDiscountedRate (property.weeklyRate.getD 0) pi,
          property.weeklyRate.getD 0, 1, discountPercentOf pi⟩ :: ·) := by
  simp only [pricePeriodsLoop]
  rw [if_pos hlt, if_neg hm, if_pos hw]

theorem loop_daily_step (property : Property) (endDate : Date) (fuel : Nat)
    (cur : Date) (pi : Nat)
    (hlt : toDays cur < toDays endDate)
    (hm : ¬(property.monthlyRate.isSome = true ∧ 1 ≤ dcm endDate cur ∧
      dcm (calculateMonthlyEnd endDate cur) cur = 1))
    (hw : ¬(property.weeklyRate.isSome = true ∧ 7 ≤ diffDays endDate cur)) :
    pricePeriodsLoop property endDate (fuel + 1) cur pi =
      some [⟨.daily, cur, endDate,
        calculateDiscountedRate (property.rate * diffDays endDate cur) pi,
        property.rate * diffDays endDate cur, diffDays endDate cur,
        discountPercentOf pi⟩] := by
  have hd : 0 < diffDays endDate cur := by unfold diffDays; omega
  simp only [pricePeriodsLoop]
  rw [if_pos hlt, if_neg hm, if_neg hw, if_pos hd,
    loop_at_end property endDate fuel endDate pi (lt_irrefl _)]
  rfl

/-- Evaluation of the 40-day scenario of spec section 8 on the embedded
decomposition. -/
theorem eval_scenario40 :
    calculatePricePeriods ⟨100, some 600, some 2000⟩ ⟨2025, 1, 1⟩
        ⟨2025, 2, 10⟩ =
      some [⟨.monthly, ⟨2025, 1, 1⟩, ⟨2025, 2, 1⟩, 2000, 2000, 1, 0⟩,
            ⟨.weekly, ⟨2025, 2, 1⟩, ⟨2025, 2, 8⟩, 540, 600, 1, 10⟩,
            ⟨.daily, ⟨2025, 2, 8⟩, ⟨2025, 2, 10⟩, 160, 200, 2, 20⟩] := by
  have hf : toDays (⟨2025, 2, 10⟩ : Date) - toDays (⟨2025, 1, 1⟩ : Date) =
      39 + 1 := by decide
  have hm1 : calculateMonthlyEnd ⟨2025, 2, 10⟩ ⟨2025, 1, 1⟩ =
      (⟨2025, 2, 1⟩ : Date) := by decide
  have hw2 : calculateWeeklyEnd ⟨2025, 2, 10⟩ ⟨2025, 2, 1⟩ =
      (⟨2025, 2, 8⟩ : Date) := by decide
  have hdd : diffDays (⟨2025, 2, 10⟩ : Date) ⟨2025, 2, 8⟩ = 2 := by decide
  unfold calculatePricePeriods
  rw [hf, loop_monthly_step _ _ _ _ _ (by decide) (by decide), hm1,
    show (39 : Nat) = 38 + 1 by norm_num,
    loop_weekly_step _ _ _ _ _ (by decide) (by decide) (by decide), hw2,
    show (38 : Nat) = 37 + 1 by norm_num,
    loop_daily_step _ _ _ _ _ (by decide) (by decide) (by decide), hdd]
  norm_num [calculateDiscountedRate, discountPercentOf]

/-- C1: for nightlyRate 100, weeklyRate 600, monthlyRate 2000 and the
40-day stay from January 1 to February 10, the pipeline of decomposition,
discounting and deposit computation produces exactly the three periods
Monthly Jan 1 - Feb 1 (base 2000, 0%, amount 2000), Weekly Feb 1 - Feb 8
(base 600, 10%, amount 540) and Daily Feb 8 - Feb 10 over 2 days (base
200, 20%, amount 160), with accommodation total 2700, security deposit
2000 (the largest tier used) and grand total 4700. -/
theorem c1_concrete_pipeline :
    estimate ⟨100, some 600, some 2000⟩ ⟨2025, 1, 1⟩ ⟨2025, 2, 10⟩ =
      some ([⟨.monthly, ⟨2025, 1, 1⟩, ⟨2025, 2, 1⟩, 2000, 2000, 1, 0⟩,
             ⟨.weekly, ⟨2025, 2, 1⟩, ⟨2025, 2, 8⟩, 540, 600, 1, 10⟩,
             ⟨.daily, ⟨2025, 2, 8⟩, ⟨2025, 2, 10⟩, 160, 200, 2, 20⟩],
            2700, 2000, 4700) ∧
    diffDays ⟨2025, 2, 10⟩ ⟨2025, 1, 1⟩ = 40 := by
  constructor
  · unfold estimate
    rw [eval_scenario40]
    norm_num [accommodationTotal, securityDeposit, longestPeriodUsed,
      List.foldl_cons, List.foldl_nil, Option.map_some']
  · decide

/-- C3: for every valid stay with checkIn before checkOut, the emitted
period sequence is non-empty, every period strictly advances, the first
period starts at checkIn, the last ends on checkOut, consecutive periods
are contiguous, distinct periods are separated (hence non-overlapping and
chronologically ordered by list position, which is the emission order),
and the union of the half-open day ranges is exactly
`[checkIn, checkOut)`. -/
theorem c3_period_invariants (property : Property) (checkIn checkOut : Date)
    (hci : checkIn.Valid) (hco : checkOut.Valid)
    (hlt : toDays checkIn < toDays checkOut)
    (ps : List PricePeriod)
    (heq : calculatePricePeriods property checkIn checkOut = some ps) :
    ps ≠ [] ∧
    (∀ p ∈ ps, toDays p.startDate < toDays p.endDate) ∧
    (∃ p rest, ps = p :: rest ∧ p.startDate = checkIn) ∧
    (∃ p, ps.getLast? = some p ∧ toDays p.endDate = toDays checkOut) ∧
    (∀ (i : Nat) (hi : i + 1 < ps.length),
      (ps.get ⟨i, by omega⟩).endDate = (ps.get ⟨i + 1, hi⟩).startDate) ∧
    (∀ (i j : Nat) (hi : i < ps.length) (hj : j < ps.length), i < j →
      toDays (ps.get ⟨i, hi⟩).endDate ≤ toDays (ps.get ⟨j, hj⟩).startDate) ∧
    (∀ x : Nat, (toDays checkIn ≤ x ∧ x < toDays checkOut) ↔
      ∃ p ∈ ps, toDays p.startDate ≤ x ∧ x < toDays p.endDate) := by
  have hcov : Covers checkOut checkIn ps :=
    loop_covers property checkOut hco _ checkIn 0 ps hci hlt heq
  exact ⟨covers_ne_nil hcov, covers_start_lt_end hcov, covers_head hcov,
    covers_getLast hcov, covers_contiguous hcov, covers_separated hcov,
    covers_union hcov⟩

theorem c3_period_invariants_witness :
    ([⟨.monthly, ⟨2025, 1, 1⟩, ⟨2025, 2, 1⟩, 2000, 2000, 1, 0⟩,
      ⟨.weekly, ⟨2025, 2, 1⟩, ⟨2025, 2, 8⟩, 540, 600, 1, 10⟩,
      ⟨.daily, ⟨2025, 2, 8⟩, ⟨2025, 2, 10⟩, 160, 200, 2, 20⟩] :
        List PricePeriod) ≠ [] :=
  (c3_period_invariants ⟨100, some 600, some 2000⟩ ⟨2025, 1, 1⟩ ⟨2025, 2, 10⟩
    (by decide) (by decide) (by decide) _ eval_scenario40).1

/-- C4: in every emitted period sequence, the period at position `i`
carries discount percentage `min (i * 10) 50` and its amount equals
`baseAmount * (1 - discountPercent / 100)`, independent of the period
kind; in particular in a 7-period sequence positions 5 and 6 both carry
exactly 50%. -/
theorem c4_progressive_discount (property : Property) (checkIn checkOut : Date)
    (ps : List PricePeriod)
    (heq : calculatePricePeriods property checkIn checkOut = some ps) :
    (∀ (i : Nat) (hi : i < ps.length),
      (ps.get ⟨i, hi⟩).discountPercent = min ((i : ℚ) * 10) 50 ∧
        (ps.get ⟨i, hi⟩).amount =
          (ps.get ⟨i, hi⟩).baseRate * (1 - min ((i : ℚ) * 10) 50 / 100)) ∧
    (ps.length = 7 →
      ∀ (h5 : 5 < ps.length) (h6 : 6 < ps.length),
        (ps.get ⟨5, h5⟩).discountPercent = 50 ∧
          (ps.get ⟨6, h6⟩).discountPercent = 50) := by
  have hd := loop_discounts property checkOut _ checkIn 0 ps heq
  have hget := discountsFrom_get hd
  have hmain : ∀ (i : Nat) (hi : i < ps.length),
      (ps.get ⟨i, hi⟩).discountPercent = min ((i : ℚ) * 10) 50 ∧
        (ps.get ⟨i, hi⟩).amount =
          (ps.get ⟨i, hi⟩).baseRate * (1 - min ((i : ℚ) * 10) 50 / 100) := by
    intro i hi
    have h := hget i hi
    rw [Nat.zero_add] at h
    simpa [discountPercentOf, mul_comm] using h
  refine ⟨hmain, ?_⟩
  intro hlen h5 h6
  constructor
  · rw [(hmain 5 h5).1]; norm_num
  · rw [(hmain 6 h6).1]; norm_num

theorem c4_progressive_discount_witness :
    (([⟨.monthly, ⟨2025, 1, 1⟩, ⟨2025, 2, 1⟩, 2000, 2000, 1, 0⟩,
       ⟨.weekly, ⟨2025, 2, 1⟩, ⟨2025, 2, 8⟩, 540, 600, 1, 10⟩,
       ⟨.daily, ⟨2025, 2, 8⟩, ⟨2025, 2, 10⟩, 160, 200, 2, 20⟩] :
         List PricePeriod).get ⟨1, by norm_num⟩).discountPercent =
        min ((1 : ℚ) * 10) 50 ∧
      (([⟨.monthly, ⟨2025, 1, 1⟩, ⟨2025, 2, 1⟩, 2000, 2000, 1, 0⟩,
         ⟨.weekly, ⟨2025, 2, 1⟩, ⟨2025, 2, 8⟩, 540, 600, 1, 10⟩,
         ⟨.daily, ⟨2025, 2, 8⟩, ⟨2025, 2, 10⟩, 160, 200, 2, 20⟩] :
           List PricePeriod).get ⟨1, by norm_num⟩).amount =
        (([⟨.monthly, ⟨2025, 1, 1⟩, ⟨2025, 2, 1⟩, 2000, 2000, 1, 0⟩,
           ⟨.weekly, ⟨2025, 2, 1⟩, ⟨2025, 2, 8⟩, 540, 600, 1, 10⟩,
           ⟨.daily, ⟨2025, 2, 8⟩, ⟨2025, 2, 10⟩, 160, 200, 2, 20⟩] :
             List PricePeriod).get ⟨1, by norm_num⟩).baseRate *
          (1 - min ((1 : ℚ) * 10) 50 / 100) :=
  (c4_progressive_discount ⟨100, some 600, some 2000⟩ ⟨2025, 1, 1⟩
    ⟨2025, 2, 10⟩ _ eval_scenario40).1 1 (by norm_num)

/-- C10: the decomposition is a total function on valid stays: with fuel
equal to the stay's day span, the loop always completes (every iteration
strictly advances the cursor by at least one day, so the span bounds the
iteration count), hence `calculatePricePeriods` returns a result for
every valid input. -/
theorem c10_decomposition_total (property : Property) (checkIn checkOut : Date)
    (hci : checkIn.Valid) (hco : checkOut.Valid) :
    (calculatePricePeriods property checkIn checkOut).isSome :=
  loop_isSome property checkOut hco _ checkIn 0 hci (le_refl _)

theorem c10_decomposition_total_witness :
    (calculatePricePeriods ⟨100, some 600, some 2000⟩ ⟨2025, 1, 1⟩
      ⟨2025, 2, 10⟩).isSome :=
  c10_decomposition_total ⟨100, some 600, some 2000⟩ ⟨2025, 1, 1⟩
    ⟨2025, 2, 10⟩ (by decide) (by decide)

/-- C5: a payment proposal is accepted exactly when it targets the next
unpaid period (`proposedPeriodIndex = paidPeriodsCount`) or pays the full
remaining balance of all periods from `paidPeriodsCount` to the end, and
every other proposal is rejected with `SequentialPaymentViolation`;
additionally, the spec section 8 scenario: with a 3-period schedule and
period 0 paid, paying period 2 alone is rejected, paying period 1 is
accepted, and paying the full remaining balance is accepted. -/
theorem c5_sequential_payment_rule :
    (∀ (schedule : List ℚ) (paidPeriodsCount proposedPeriodIndex : Nat)
      (amount : ℚ),
      (validateNextPayment schedule paidPeriodsCount proposedPeriodIndex
          amount = PaymentDecision.accepted ↔
        (proposedPeriodIndex = paidPeriodsCount ∨
          amount = remainingBalance schedule paidPeriodsCount)) ∧
      (validateNextPayment schedule paidPeriodsCount proposedPeriodIndex
          amount = PaymentDecision.accepted ∨
        validateNextPayment schedule paidPeriodsCount proposedPeriodIndex
          amount = PaymentDecision.rejected "SequentialPaymentViolation")) ∧
    validateNextPayment [1000, 600, 200] 1 2 200 =
      PaymentDecision.rejected "SequentialPaymentViolation" ∧
    validateNextPayment [1000, 600, 200] 1 1 600 =
      PaymentDecision.accepted ∧
    validateNextPayment [1000, 600, 200] 1 2 800 =
      PaymentDecision.accepted := by
  refine ⟨?_, by norm_num [validateNextPayment, remainingBalance],
    by norm_num [validateNextPayment, remainingBalance],
    by norm_num [validateNextPayment, remainingBalance]⟩
  intro schedule paidPeriodsCount proposedPeriodIndex amount
  unfold validateNextPayment
  split_ifs with h <;> simp [h]

/-- C6 counterexample: the half-open rule claimed by the spec is not what
the queries implement: for the stored booking Jan 10 - Jan 15 and the
candidate Jan 15 - Jan 20 the claimed test `aStart < bEnd ∧ bStart < aEnd`
is false, yet the SQL interval test treats them as overlapping. -/
theorem c6_counterexample_halfopen_boundary :
    overlapsQuery (toDays ⟨2025, 1, 10⟩) (toDays ⟨2025, 1, 15⟩)
        (toDays ⟨2025, 1, 15⟩) (toDays ⟨2025, 1, 20⟩) = true ∧
    ¬(toDays (⟨2025, 1, 10⟩ : Date) < toDays (⟨2025, 1, 20⟩ : Date) ∧
      toDays (⟨2025, 1, 15⟩ : Date) < toDays (⟨2025, 1, 15⟩ : Date)) := by
  decide

/-- C6 amended: for well-formed intervals the availability queries treat
the stored interval `[aStart, aEnd]` and candidate `[bStart, bEnd]` as
overlapping iff `aStart ≤ bEnd ∧ bStart ≤ aEnd` — the closed-interval
test, so the check is symmetric, a booking Jan 10 - Jan 15 does overlap a
candidate Jan 15 - Jan 20 (the shared boundary day counts), and
Jan 14 - Jan 20 overlaps it as well. -/
theorem c6_overlap_closed_intervals :
    (∀ aStart aEnd bStart bEnd : Nat, aStart ≤ aEnd → bStart ≤ bEnd →
      ((overlapsQuery aStart aEnd bStart bEnd = true) ↔
        (aStart ≤ bEnd ∧ bStart ≤ aEnd)) ∧
      overlapsQuery aStart aEnd bStart bEnd =
        overlapsQuery bStart bEnd aStart aEnd) ∧
    overlapsQuery (toDays ⟨2025, 1, 10⟩) (toDays ⟨2025, 1, 15⟩)
        (toDays ⟨2025, 1, 15⟩) (toDays ⟨2025, 1, 20⟩) = true ∧
    overlapsQuery (toDays ⟨2025, 1, 10⟩) (toDays ⟨2025, 1, 15⟩)
        (toDays ⟨2025, 1, 14⟩) (toDays ⟨2025, 1, 20⟩) = true := by
  have hchar : ∀ aStart aEnd bStart bEnd : Nat, aStart ≤ aEnd → bStart ≤ bEnd →
      ((overlapsQuery aStart aEnd bStart bEnd = true) ↔
        (aStart ≤ bEnd ∧ bStart ≤ aEnd)) := by
    intro a b c d hab hcd
    simp only [overlapsQuery, Bool.or_eq_true, Bool.and_eq_true,
      decide_eq_true_eq]
    omega
  refine ⟨?_, by decide, by decide⟩
  intro a b c d hab hcd
  refine ⟨hchar a b c d hab hcd, ?_⟩
  have h1 := hchar a b c d hab hcd
  have h2 := hchar c d a b hcd hab
  by_cases hq : overlapsQuery a b c d = true
  · have h2t : overlapsQuery c d a b = true := by
      refine h2.mpr ?_
      have := h1.mp hq
      omega
    rw [hq, h2t]
  · have hq' : overlapsQuery a b c d = false := by
      cases hx : overlapsQuery a b c d
      · rfl
      · exact absurd hx hq
    have h2f : overlapsQuery c d a b = false := by
      cases hx : overlapsQuery c d a b
      · rfl
      · refine absurd (h1.mpr ?_) hq
        have := h2.mp hx
        omega
    rw [hq', h2f]

/-- C7 counterexample: the check-availability endpoint consults only the
`guests` table (which has no status column): with no guest rows it
reports available even though a confirmed overlapping booking exists in
the bookings store, and a bare guest stay record blocks it regardless of
any booking status. -/
theorem c7_counterexample_guests_table :
    checkAvailabilityHandler [] 1 ⟨2025, 1, 10⟩ ⟨2025, 1, 12⟩ = true ∧
    bookingOverlapExists [⟨1, "confirmed", ⟨2025, 1, 10⟩, ⟨2025, 1, 12⟩⟩] 1
      ⟨2025, 1, 10⟩ ⟨2025, 1, 12⟩ = true ∧
    checkAvailabilityHandler [⟨1, ⟨2025, 1, 10⟩, ⟨2025, 1, 12⟩⟩] 1
      ⟨2025, 1, 10⟩ ⟨2025, 1, 12⟩ = false := by
  decide

/-- C7 amended: the standalone check-availability endpoint reports
available iff no guest stay record for the property satisfies the overlap
query — booking status never enters that check because the guests table
carries none; it is the booking-creation path that blocks exactly when a
booking with status confirmed overlaps, and bookings with any other
status never block creation. -/
theorem c7_availability_data_sources :
    (∀ (rows : List GuestRow) (pid : Nat) (ci co : Date),
      checkAvailabilityHandler rows pid ci co = true ↔
        ∀ g ∈ rows, g.propertyId = pid →
          overlapsQuery (toDays g.checkIn) (toDays g.checkOut)
            (toDays ci) (toDays co) = false) ∧
    (∀ (rows : List BookingRow) (pid : Nat) (ci co : Date),
      bookingOverlapExists rows pid ci co = true ↔
        ∃ b ∈ rows, (b.propertyId = pid ∧ b.status = "confirmed") ∧
          overlapsQuery (toDays b.checkIn) (toDays b.checkOut)
            (toDays ci) (toDays co) = true) ∧
    (∀ (rows : List BookingRow) (pid : Nat) (ci co : Date),
      (∀ b ∈ rows, b.status ≠ "confirmed") →
      bookingOverlapExists rows pid ci co = false) := by
  refine ⟨?_, ?_, ?_⟩
  · intro rows pid ci co
    simp only [checkAvailabilityHandler, Bool.not_eq_true', List.any_eq_false,
      Bool.and_eq_true, decide_eq_true_eq, not_and, Bool.not_eq_true]
  · intro rows pid ci co
    simp only [bookingOverlapExists, List.any_eq_true, Bool.and_eq_true,
      decide_eq_true_eq]
  · intro rows pid ci co h
    simp only [bookingOverlapExists, List.any_eq_false, Bool.and_eq_true,
      decide_eq_true_eq, not_and]
    intro b hb hpid hst
    exact absurd hpid.2 (h b hb)

theorem c7_availability_data_sources_witness :
    bookingOverlapExists [⟨1, "pending", ⟨2025, 1, 10⟩, ⟨2025, 1, 12⟩⟩] 1
      ⟨2025, 1, 10⟩ ⟨2025, 1, 12⟩ = false :=
  c7_availability_data_sources.2.2
    [⟨1, "pending", ⟨2025, 1, 10⟩, ⟨2025, 1, 12⟩⟩] 1 ⟨2025, 1, 10⟩
    ⟨2025, 1, 12⟩ (by decide)

/-- C9 counterexample: the decomposition does not fail on the inputs the
spec says it must reject — with checkIn equal to checkOut it returns the
empty period list, and with a zero nightly rate it returns a period
priced at zero, in both cases producing an ordinary result rather than an
InvalidStayError or InvalidRateError. -/
theorem c9_counterexample_no_errors :
    calculatePricePeriods ⟨100, some 600, some 2000⟩ ⟨2025, 5, 1⟩
      ⟨2025, 5, 1⟩ = some [] ∧
    calculatePricePeriods ⟨0, none, none⟩ ⟨2025, 5, 1⟩ ⟨2025, 5, 3⟩ =
      some [⟨.daily, ⟨2025, 5, 1⟩, ⟨2025, 5, 3⟩, 0, 0, 2, 0⟩] := by
  constructor
  · exact loop_at_end ⟨100, some 600, some 2000⟩ ⟨2025, 5, 1⟩ 0 ⟨2025, 5, 1⟩ 0
      (by decide)
  · have hf : toDays (⟨2025, 5, 3⟩ : Date) - toDays (⟨2025, 5, 1⟩ : Date) =
        1 + 1 := by decide
    have hdd : diffDays (⟨2025, 5, 3⟩ : Date) ⟨2025, 5, 1⟩ = 2 := by decide
    unfold calculatePricePeriods
    rw [hf, loop_daily_step _ _ _ _ _ (by decide) (by decide) (by decide), hdd]
    norm_num [calculateDiscountedRate, discountPercentOf]

/-- C9 amended: the decomposition itself never fails: whenever checkIn is
on or after checkOut it returns the empty period list (it neither raises
an InvalidStayError nor swaps the reversed dates), and no InvalidRateError
exists for non-positive nightly rates; separately, the booking endpoint's
date validation rejects checkIn on or after checkOut with a 400 message
and passes exactly the strictly ordered stays. -/
theorem c9_validation_behaviour :
    (∀ (property : Property) (checkIn checkOut : Date),
      toDays checkOut ≤ toDays checkIn →
      calculatePricePeriods property checkIn checkOut = some []) ∧
    (∀ checkIn checkOut : Date,
      bookingDateValidation checkIn checkOut = Except.ok () ↔
        toDays checkIn < toDays checkOut) ∧
    (∀ checkIn checkOut : Date, toDays checkOut ≤ toDays checkIn →
      bookingDateValidation checkIn checkOut =
        Except.error "Check-out date must be after check-in date") := by
  refine ⟨?_, ?_, ?_⟩
  · intro p ci co h
    exact loop_at_end p co _ ci 0 (by omega)
  · intro ci co
    unfold bookingDateValidation
    split_ifs with h
    · constructor
      · intro hx
        exact absurd hx (by simp)
      · intro hx
        omega
    · constructor
      · intro _
        omega
      · intro _
        rfl
  · intro ci co h
    unfold bookingDateValidation
    rw [if_pos h]

theorem c9_validation_behaviour_witness :
    calculatePricePeriods ⟨100, some 600, some 2000⟩ ⟨2025, 5, 2⟩
      ⟨2025, 5, 1⟩ = some [] :=
  c9_validation_behaviour.1 ⟨100, some 600, some 2000⟩ ⟨2025, 5, 2⟩
    ⟨2025, 5, 1⟩ (by decide)

theorem c6_overlap_closed_intervals_witness :
    ((overlapsQuery 3 5 4 9 = true) ↔ (3 ≤ 9 ∧ 4 ≤ 5)) ∧
    overlapsQuery 3 5 4 9 = overlapsQuery 4 9 3 5 :=
  c6_overlap_closed_intervals.1 3 5 4 9 (by decide) (by decide)

/-- C2 counterexample: the code's monthly branch is not gated on a
complete calendar month fitting: for the one-day stay Jan 31 - Feb 1 of
2024 the cursor advanced by one month (Feb 29) lands after checkOut, yet
the decomposition emits a Monthly period covering just that day at the
full monthly rate instead of a Daily period. -/
theorem c2_counterexample_month_index :
    calculatePricePeriods ⟨100, some 600, some 2000⟩ ⟨2024, 1, 31⟩
        ⟨2024, 2, 1⟩ =
      some [⟨.monthly, ⟨2024, 1, 31⟩, ⟨2024, 2, 1⟩, 2000, 2000, 1, 0⟩] ∧
    toDays (⟨2024, 2, 1⟩ : Date) < toDays (addMonths1 ⟨2024, 1, 31⟩) := by
  constructor
  · have hf : toDays (⟨2024, 2, 1⟩ : Date) - toDays (⟨2024, 1, 31⟩ : Date) =
        0 + 1 := by decide
    have hm1 : calculateMonthlyEnd ⟨2024, 2, 1⟩ ⟨2024, 1, 31⟩ =
        (⟨2024, 2, 1⟩ : Date) := by decide
    unfold calculatePricePeriods
    rw [hf, loop_monthly_step _ _ _ _ _ (by decide) (by decide), hm1,
      loop_at_end ⟨100, some 600, some 2000⟩ ⟨2024, 2, 1⟩ 0 ⟨2024, 2, 1⟩ 1
        (by decide)]
    norm_num [calculateDiscountedRate, discountPercentOf]
  · decide

/-- C2 amended: decomposition is greedy longest-unit-first with the fixed
monthly-over-weekly-over-daily precedence, but the monthly guard is the
code's calendar-month-index test: a Monthly period is emitted exactly when
monthlyRate is set, checkOut's month index exceeds the cursor's
(`differenceInCalendarMonths ≥ 1`), and the emitted end
`min(cursor + 1 month, checkOut)` is one month index ahead — the period
covers `[d, min(d + 1 month, checkOut))`, which can be shorter than a
calendar month; otherwise a Weekly period `[d, d + 7 days)` when
weeklyRate is set and at least 7 days remain; otherwise a single Daily
period absorbing the whole remainder and ending the loop. -/
theorem c2_greedy_precedence (property : Property)
    (endDate currentDate : Date) (periodIndex fuel : Nat)
    (ps : List PricePeriod)
    (hlt : toDays currentDate < toDays endDate)
    (heq : pricePeriodsLoop property endDate (fuel + 1) currentDate
      periodIndex = some ps) :
    ((property.monthlyRate.isSome = true ∧ 1 ≤ dcm endDate currentDate ∧
        dcm (calculateMonthlyEnd endDate currentDate) currentDate = 1) →
      ∃ rest, ps =
        ⟨.monthly, currentDate, calculateMonthlyEnd endDate currentDate,
          calculateDiscountedRate (property.monthlyRate.getD 0) periodIndex,
          property.monthlyRate.getD 0, 1,
          discountPercentOf periodIndex⟩ :: rest) ∧
    (¬(property.monthlyRate.isSome = true ∧ 1 ≤ dcm endDate currentDate ∧
        dcm (calculateMonthlyEnd endDate currentDate) currentDate = 1) →
      (property.weeklyRate.isSome = true ∧
        7 ≤ diffDays endDate currentDate) →
      ∃ rest, ps =
        ⟨.weekly, currentDate, calculateWeeklyEnd endDate currentDate,
          calculateDiscountedRate (property.weeklyRate.getD 0) periodIndex,
          property.weeklyRate.getD 0, 1,
          discountPercentOf periodIndex⟩ :: rest) ∧
    (¬(property.monthlyRate.isSome = true ∧ 1 ≤ dcm endDate currentDate ∧
        dcm (calculateMonthlyEnd endDate currentDate) currentDate = 1) →
      ¬(property.weeklyRate.isSome = true ∧
        7 ≤ diffDays endDate currentDate) →
      ps = [⟨.daily, currentDate, endDate,
        calculateDiscountedRate
          (property.rate * diffDays endDate currentDate) periodIndex,
        property.rate * diffDays endDate currentDate,
        diffDays endDate currentDate, discountPercentOf periodIndex⟩]) := by
  by_cases hm : property.monthlyRate.isSome = true ∧
      1 ≤ dcm endDate currentDate ∧
      dcm (calculateMonthlyEnd endDate currentDate) currentDate = 1
  · rw [loop_monthly_step _ _ _ _ _ hlt hm] at heq
    obtain ⟨tail, htail, rfl⟩ := Option.map_eq_some'.mp heq
    exact ⟨fun _ => ⟨tail, rfl⟩, fun hnm => absurd hm hnm,
      fun hnm => absurd hm hnm⟩
  · by_cases hw : property.weeklyRate.isSome = true ∧
        7 ≤ diffDays endDate currentDate
    · rw [loop_weekly_step _ _ _ _ _ hlt hm hw] at heq
      obtain ⟨tail, htail, rfl⟩ := Option.map_eq_some'.mp heq
      exact ⟨fun h => absurd h hm, fun _ _ => ⟨tail, rfl⟩,
        fun _ hnw => absurd hw hnw⟩
    · rw [loop_daily_step _ _ _ _ _ hlt hm hw] at heq
      obtain rfl := Option.some_inj.mp heq
      exact ⟨fun h => absurd h hm, fun _ h => absurd h hw, fun _ _ => rfl⟩

theorem c2_greedy_precedence_witness :
    ∃ rest,
      [(⟨.monthly, ⟨2025, 1, 1⟩, ⟨2025, 2, 1⟩, 2000, 2000, 1, 0⟩ :
          PricePeriod),
        ⟨.weekly, ⟨2025, 2, 1⟩, ⟨2025, 2, 8⟩, 540, 600, 1, 10⟩,
        ⟨.daily, ⟨2025, 2, 8⟩, ⟨2025, 2, 10⟩, 160, 200, 2, 20⟩] =
      ⟨.monthly, ⟨2025, 1, 1⟩,
        calculateMonthlyEnd ⟨2025, 2, 10⟩ ⟨2025, 1, 1⟩,
        calculateDiscountedRate
          ((⟨100, some 600, some 2000⟩ : Property).monthlyRate.getD 0) 0,
        (⟨100, some 600, some 2000⟩ : Property).monthlyRate.getD 0, 1,
        discountPercentOf 0⟩ :: rest :=
  (c2_greedy_precedence ⟨100, some 600, some 2000⟩ ⟨2025, 2, 10⟩
    ⟨2025, 1, 1⟩ 0 39 _ (by decide) eval_scenario40).1 (by decide)

/-- C8 counterexample: a 2-day stay that crosses a calendar-month
boundary against a schedule with a monthly rate does not produce a Daily
period: Jan 31 - Feb 2 of 2025 decomposes into one Monthly period at the
full monthly rate. -/
theorem c8_counterexample_month_boundary :
    calculatePricePeriods ⟨100, some 600, some 2000⟩ ⟨2025, 1, 31⟩
        ⟨2025, 2, 2⟩ =
      some [⟨.monthly, ⟨2025, 1, 31⟩, ⟨2025, 2, 2⟩, 2000, 2000, 1, 0⟩] ∧
    diffDays ⟨2025, 2, 2⟩ ⟨2025, 1, 31⟩ < 7 := by
  constructor
  · have hf : toDays (⟨2025, 2, 2⟩ : Date) - toDays (⟨2025, 1, 31⟩ : Date) =
        1 + 1 := by decide
    have hm1 : calculateMonthlyEnd ⟨2025, 2, 2⟩ ⟨2025, 1, 31⟩ =
        (⟨2025, 2, 2⟩ : Date) := by decide
    unfold calculatePricePeriods
    rw [hf, loop_monthly_step _ _ _ _ _ (by decide) (by decide), hm1,
      loop_at_end ⟨100, some 600, some 2000⟩ ⟨2025, 2, 2⟩ 1 ⟨2025, 2, 2⟩ 1
        (by decide)]
    norm_num [calculateDiscountedRate, discountPercentOf]
  · decide

/-- C8 amended: a stay shorter than 7 days yields exactly one Daily
period spanning the whole stay provided monthlyRate is unset or the stay
does not reach a later calendar month (`differenceInCalendarMonths < 1`);
and a schedule with only nightlyRate set always yields exactly one Daily
period spanning the whole stay. -/
theorem c8_single_daily_period (property : Property)
    (checkIn checkOut : Date)
    (hci : checkIn.Valid) (hco : checkOut.Valid)
    (hlt : toDays checkIn < toDays checkOut)
    (hcase : (diffDays checkOut checkIn < 7 ∧
        (property.monthlyRate = none ∨ dcm checkOut checkIn < 1)) ∨
      (property.weeklyRate = none ∧ property.monthlyRate = none)) :
    calculatePricePeriods property checkIn checkOut =
      some [⟨.daily, checkIn, checkOut,
        calculateDiscountedRate
          (property.rate * diffDays checkOut checkIn) 0,
        property.rate * diffDays checkOut checkIn,
        diffDays checkOut checkIn, discountPercentOf 0⟩] := by
  obtain ⟨n, hn⟩ : ∃ n, toDays checkOut - toDays checkIn = n + 1 :=
    ⟨toDays checkOut - toDays checkIn - 1, by omega⟩
  have hm : ¬(property.monthlyRate.isSome = true ∧
      1 ≤ dcm checkOut checkIn ∧
      dcm (calculateMonthlyEnd checkOut checkIn) checkIn = 1) := by
    rcases hcase with ⟨_, hA⟩ | ⟨_, hB⟩
    · rcases hA with hnone | hdcm
      · rintro ⟨hs, _, _⟩
        rw [hnone] at hs
        simp at hs
      · rintro ⟨_, hge, _⟩
        omega
    · rintro ⟨hs, _, _⟩
      rw [hB] at hs
      simp at hs
  have hw : ¬(property.weeklyRate.isSome = true ∧
      7 ≤ diffDays checkOut checkIn) := by
    rcases hcase with ⟨hlt7, _⟩ | ⟨hBw, _⟩
    · rintro ⟨_, hge⟩
      omega
    · rintro ⟨hs, _⟩
      rw [hBw] at hs
      simp at hs
  unfold calculatePricePeriods
  rw [hn]
  exact loop_daily_step property checkOut n checkIn 0 hlt hm hw

theorem c8_single_daily_period_witness :
    calculatePricePeriods ⟨100, some 600, some 2000⟩ ⟨2025, 3, 10⟩
        ⟨2025, 3, 13⟩ =
      some [⟨.daily, ⟨2025, 3, 10⟩, ⟨2025, 3, 13⟩, 300, 300, 3, 0⟩] := by
  have h := c8_single_daily_period ⟨100, some 600, some 2000⟩ ⟨2025, 3, 10⟩
    ⟨2025, 3, 13⟩ (by decide) (by decide) (by decide)
    (Or.inl ⟨by decide, Or.inr (by decide)⟩)
  rw [h]
  have hdd : diffDays (⟨2025, 3, 13⟩ : Date) ⟨2025, 3, 10⟩ = 3 := by decide
  rw [hdd]
  norm_num [calculateDiscountedRate, discountPercentOf]

end PropertyPulse
